import Mathlib

/-!
Shallow embedding of the AdEase training pipeline
(`src/training/video_processor.py`, `src/training/train_pipeline.py`,
`src/training/model_trainer.py`) together with proofs about its
segmentation, audio-feature-extraction and model-scoring behaviour.

Times and durations are embedded as rationals; audio samples and feature
values as reals.  External library calls (librosa DSP transforms, ffmpeg)
are modelled as parameters, while every statistic, loop, branch and
formula written in the repository itself is translated directly.
-/

/-- A clip window emitted by `VideoProcessor._extract_clips`
(video_processor.py): the ffmpeg invocation receives `ss = start` and
`t = stop - start`, and the generated clip file name carries the
zero-based `index`. -/
structure Clip where
  start : ℚ
  stop : ℚ
  index : ℕ
deriving DecidableEq, Repr

/-- The `while current_time < end_time` loop of
`VideoProcessor._extract_clips` (video_processor.py lines 94-130): each
iteration forms `clip_end = min (current_time + clip_duration) end_time`,
breaks when `clip_end - current_time < 3`, otherwise emits the window and
advances `current_time` by `clip_duration`.  The ffmpeg invocation is
external and wrapped in try/except inside the loop body, so the list of
emitted windows is the loop's whole observable result. -/
def extract_clips_loop (end_time clip_duration : ℚ) (current_time : ℚ) (clip_index : ℕ) : List Clip :=
  if h : current_time < end_time then
    if h2 : min (current_time + clip_duration) end_time - current_time < 3 then
      []
    else
      ⟨current_time, min (current_time + clip_duration) end_time, clip_index⟩ ::
        extract_clips_loop end_time clip_duration (current_time + clip_duration) (clip_index + 1)
  else
    []
termination_by (⌈(end_time - current_time) / clip_duration⌉).toNat
decreasing_by
  have hc : (3:ℚ) ≤ clip_duration := by
    linarith [not_lt.mp h2, min_le_left (current_time + clip_duration) end_time]
  have hc0 : (0:ℚ) < clip_duration := by linarith
  have hdiv : (end_time - (current_time + clip_duration)) / clip_duration
      = (end_time - current_time) / clip_duration - 1 := by
    field_simp
    ring
  have hceil : ⌈(end_time - (current_time + clip_duration)) / clip_duration⌉
      = ⌈(end_time - current_time) / clip_duration⌉ - 1 := by
    rw [hdiv, Int.ceil_sub_one]
  have hpos : 0 < ⌈(end_time - current_time) / clip_duration⌉ :=
    Int.ceil_pos.mpr (div_pos (by linarith) hc0)
  omega

/-- `VideoProcessor._extract_clips` restricted to its pure segmentation
behaviour: slice the region `[start_time, end_time)` into windows of
length `clip_duration`. -/
def extract_clips (start_time end_time : ℚ) (clip_duration : ℚ) : List Clip :=
  extract_clips_loop end_time clip_duration start_time 0

/-- `_extract_clips` seen as a Python call that could in principle raise:
every execution path of the body returns normally (its only fallible
operation, the ffmpeg invocation, sits inside a try/except in the loop),
so the embedding always produces `Except.ok`. -/
def extract_clips_run (start_time end_time clip_duration : ℚ) : Except String (List Clip) :=
  Except.ok (extract_clips start_time end_time clip_duration)

/-- The window list the (amended) segmentation claim predicts for a region
`[s, e)` and clip duration `c`: `⌊(e-s)/c⌋` full windows of length `c`,
then the trailing remainder window exactly when the remainder is at least
3 seconds.  Stated from the claim's words, for comparison with
`extract_clips`. -/
def claimed_windows (s e c : ℚ) : List Clip :=
  ((List.range (⌊(e - s) / c⌋).toNat).map fun i => ⟨s + i * c, s + (i + 1) * c, i⟩) ++
    (if 3 ≤ (e - s) - (⌊(e - s) / c⌋).toNat * c then
      [⟨s + (⌊(e - s) / c⌋).toNat * c, e, (⌊(e - s) / c⌋).toNat⟩]
    else [])

lemma extract_clips_loop_of_not_lt (e c t : ℚ) (k : ℕ) (h : ¬ t < e) :
    extract_clips_loop e c t k = [] := by
  unfold extract_clips_loop
  simp [h]

lemma extract_clips_loop_break (e c t : ℚ) (k : ℕ) (h : t < e)
    (h2 : min (t + c) e - t < 3) : extract_clips_loop e c t k = [] := by
  unfold extract_clips_loop
  simp [h, h2]

lemma extract_clips_loop_step (e c t : ℚ) (k : ℕ) (h : t < e)
    (h2 : ¬ min (t + c) e - t < 3) :
    extract_clips_loop e c t k =
      ⟨t, min (t + c) e, k⟩ :: extract_clips_loop e c (t + c) (k + 1) := by
  conv_lhs => rw [extract_clips_loop]
  simp [h, h2]

/-- Closed form of the `_extract_clips` loop for clip durations of at
least 3 seconds: `n = ⌊(e-t)/c⌋` full windows followed by the remainder
window exactly when the remainder is at least 3. -/
lemma extract_clips_loop_closed (e c : ℚ) (hc : 3 ≤ c) :
    ∀ (n : ℕ) (t : ℚ) (k : ℕ), (⌊(e - t) / c⌋).toNat = n → 0 ≤ e - t →
      extract_clips_loop e c t k =
        ((List.range n).map fun i => ⟨t + i * c, t + (i + 1) * c, k + i⟩) ++
          (if 3 ≤ (e - t) - n * c then [⟨t + n * c, e, k + n⟩] else []) := by
  intro n
  induction n with
  | zero =>
    intro t k hq hD
    have hc0 : (0:ℚ) < c := by linarith
    have hfl0 : ⌊(e - t) / c⌋ = 0 := by
      have h1 : 0 ≤ ⌊(e - t) / c⌋ := Int.floor_nonneg.mpr (div_nonneg hD hc0.le)
      omega
    have hlt : e - t < c := by
      have h2 := Int.lt_floor_add_one ((e - t) / c)
      rw [hfl0] at h2
      push_cast at h2
      have h2' : (e - t) / c < 1 := by linarith
      calc e - t = (e - t) / c * c := by field_simp
        _ < 1 * c := by exact mul_lt_mul_of_pos_right h2' hc0
        _ = c := one_mul c
    by_cases ht : t < e
    · have hmin : min (t + c) e = e := min_eq_right (by linarith)
      by_cases h3 : 3 ≤ e - t
      · rw [extract_clips_loop_step e c t k ht (by rw [hmin]; linarith)]
        rw [extract_clips_loop_of_not_lt e c (t + c) (k + 1) (by push_neg; linarith)]
        rw [hmin]
        simp only [List.range_zero, List.map_nil, List.nil_append]
        rw [if_pos (by push_cast; linarith)]
        simp [Clip.mk.injEq]
      · rw [extract_clips_loop_break e c t k ht (by rw [hmin]; linarith)]
        simp only [List.range_zero, List.map_nil, List.nil_append]
        rw [if_neg (by push_cast; linarith)]
    · have hD0 : e - t = 0 := le_antisymm (by linarith [not_lt.mp ht]) hD
      rw [extract_clips_loop_of_not_lt e c t k ht]
      simp only [List.range_zero, List.map_nil, List.nil_append]
      rw [if_neg (by push_cast; linarith)]
  | succ m ih =>
    intro t k hq hD
    have hc0 : (0:ℚ) < c := by linarith
    have hflnn : 0 ≤ ⌊(e - t) / c⌋ := Int.floor_nonneg.mpr (div_nonneg hD hc0.le)
    have hfl : ⌊(e - t) / c⌋ = (m : ℤ) + 1 := by omega
    have hone : (1:ℚ) ≤ (e - t) / c := by
      have h5 := Int.floor_le ((e - t) / c)
      rw [hfl] at h5
      push_cast at h5
      linarith
    have hcle : c ≤ e - t := by
      have h6 := (one_le_div hc0).mp hone
      linarith
    have ht : t < e := by linarith
    have hmin : min (t + c) e = t + c := min_eq_left (by linarith)
    rw [extract_clips_loop_step e c t k ht (by rw [hmin]; linarith), hmin]
    have hq' : (⌊(e - (t + c)) / c⌋).toNat = m := by
      have hdiv : (e - (t + c)) / c = (e - t) / c - 1 := by
        field_simp
        ring
      have hsub : ⌊(e - t) / c - 1⌋ = ⌊(e - t) / c⌋ - 1 := by
        exact_mod_cast Int.floor_sub_int ((e - t) / c) 1
      rw [hdiv, hsub, hfl]
      omega
    rw [ih (t + c) (k + 1) hq' (by linarith)]
    rw [List.range_succ_eq_map, List.map_cons, List.map_map, List.cons_append]
    have hhead : (⟨t, t + c, k⟩ : Clip) = ⟨t + (0:ℕ) * c, t + ((0:ℕ) + 1) * c, k + 0⟩ := by
      simp only [Clip.mk.injEq]
      push_cast
      refine ⟨by ring, by ring, by omega⟩
    have hmap : (fun i : ℕ => (⟨t + c + i * c, t + c + (i + 1) * c, k + 1 + i⟩ : Clip)) =
        (fun i : ℕ => (⟨t + i * c, t + (i + 1) * c, k + i⟩ : Clip)) ∘ Nat.succ := by
      funext i
      simp only [Function.comp_apply, Clip.mk.injEq]
      push_cast
      refine ⟨by ring, by ring, by omega⟩
    have hcond : e - (t + c) - (m : ℚ) * c = e - t - ((m + 1 : ℕ) : ℚ) * c := by
      push_cast
      ring
    have htail : (⟨t + c + (m : ℚ) * c, e, k + 1 + m⟩ : Clip) =
        ⟨t + ((m + 1 : ℕ) : ℚ) * c, e, k + (m + 1)⟩ := by
      simp only [Clip.mk.injEq]
      push_cast
      refine ⟨by ring, by trivial, by omega⟩
    rw [hcond, htail, hmap, hhead]

/-- Appending at the front of a chain: `Chain' P` holds of
`(range q).map f ++ rest` when `P` relates consecutive values of `f`,
the last mapped value relates to the head of `rest`, and `rest` is a
chain. -/
lemma chain'_map_range_append {α : Type} (P : α → α → Prop) (f : ℕ → α) :
    ∀ (q : ℕ) (rest : List α), (∀ i, i + 1 < q → P (f i) (f (i + 1))) →
      (∀ y ∈ rest.head?, q = 0 ∨ P (f (q - 1)) y) → List.Chain' P rest →
      List.Chain' P ((List.range q).map f ++ rest) := by
  intro q
  induction q with
  | zero =>
    intro rest _ _ h3
    simpa using h3
  | succ m ih =>
    intro rest h1 h2 h3
    rw [List.range_succ, List.map_append, List.append_assoc]
    simp only [List.map_cons, List.map_nil, List.singleton_append]
    have hPm : ∀ y ∈ rest.head?, P (f m) y := by
      intro y hy
      rcases h2 y hy with h0 | hp
      · omega
      · simpa using hp
    apply ih
    · intro i hi
      exact h1 i (by omega)
    · intro y hy
      simp only [List.head?_cons, Option.mem_def, Option.some.injEq] at hy
      subst hy
      by_cases hm : m = 0
      · exact Or.inl hm
      · refine Or.inr ?_
        have h7 := h1 (m - 1) (by omega)
        have h8 : m - 1 + 1 = m := by omega
        rwa [h8] at h7
    · rw [List.chain'_cons']
      exact ⟨hPm, h3⟩

lemma extract_clips_eq_claimed (s e c : ℚ) (hc : 3 ≤ c) (h0 : 0 ≤ e - s) :
    extract_clips s e c = claimed_windows s e c := by
  have h := extract_clips_loop_closed e c hc (⌊(e - s) / c⌋).toNat s 0 rfl h0
  unfold extract_clips
  rw [h]
  unfold claimed_windows
  simp only [Nat.zero_add]

/-- C3 (amended): for clip durations `c ≥ 3` the segmenter emits exactly
`⌊D/c⌋` full windows of length `c` plus a trailing window of length
`D mod c` exactly when that remainder is at least 3; the windows are
contiguous, zero-indexed in increasing order, and their total length is
at most `D`.  (For `0 < c < 3` the loop's minimum-length check discards
even the full windows, refuting the claim as stated; see the
counterexample.) -/
theorem c3_segmentation_amended (s e c : ℚ) (hc : 3 ≤ c) (hD : c ≤ e - s) :
    extract_clips s e c = claimed_windows s e c
    ∧ (extract_clips s e c).length
        = (⌊(e - s) / c⌋).toNat
          + (if 3 ≤ (e - s) - ((⌊(e - s) / c⌋).toNat : ℚ) * c then 1 else 0)
    ∧ (extract_clips s e c).map Clip.index = List.range (extract_clips s e c).length
    ∧ ((extract_clips s e c).map fun w => w.stop - w.start).sum ≤ e - s
    ∧ List.Chain' (fun w₁ w₂ => w₁.stop = w₂.start) (extract_clips s e c)
    ∧ (∀ w ∈ extract_clips s e c, w.index < (⌊(e - s) / c⌋).toNat → w.stop - w.start = c)
    ∧ (∀ w ∈ extract_clips s e c, w.index = (⌊(e - s) / c⌋).toNat →
        w.stop - w.start = (e - s) - ((⌊(e - s) / c⌋).toNat : ℚ) * c
          ∧ 3 ≤ (e - s) - ((⌊(e - s) / c⌋).toNat : ℚ) * c) := by
  have h0 : (0:ℚ) ≤ e - s := by linarith
  have hc0 : (0:ℚ) < c := by linarith
  have heq := extract_clips_eq_claimed s e c hc h0
  rw [heq]
  set q := (⌊(e - s) / c⌋).toNat with hqdef
  have hq1 : 1 ≤ q := by
    have hfl : (1:ℤ) ≤ ⌊(e - s) / c⌋ := by
      apply Int.le_floor.mpr
      rw [Int.cast_one]
      exact (one_le_div hc0).mpr (by linarith)
    omega
  have hqQ : ((q:ℕ):ℚ) = ((⌊(e - s) / c⌋ : ℤ) : ℚ) := by
    have h1 := Int.toNat_of_nonneg (Int.floor_nonneg.mpr (div_nonneg h0 hc0.le))
    exact_mod_cast congrArg (fun z : ℤ => (z : ℚ)) h1
  have hqcast : ((q:ℕ):ℚ) * c ≤ e - s := by
    rw [hqQ]
    calc ((⌊(e - s) / c⌋ : ℤ) : ℚ) * c ≤ (e - s) / c * c :=
          mul_le_mul_of_nonneg_right (Int.floor_le _) hc0.le
      _ = e - s := by field_simp
  refine ⟨rfl, ?_, ?_, ?_, ?_, ?_, ?_⟩
  · unfold claimed_windows
    by_cases hcase : 3 ≤ (e - s) - ((q:ℕ):ℚ) * c
    · simp [hcase]
    · simp [hcase]
  · unfold claimed_windows
    have hcomp : (Clip.index ∘ fun i : ℕ => (⟨s + i * c, s + (i + 1) * c, i⟩ : Clip)) = id := rfl
    by_cases hcase : 3 ≤ (e - s) - ((q:ℕ):ℚ) * c
    · rw [if_pos hcase, List.map_append, List.map_map, hcomp, List.map_id]
      simp [List.range_succ]
    · rw [if_neg hcase, List.append_nil, List.map_map, hcomp, List.map_id]
      simp
  · unfold claimed_windows
    rw [List.map_append, List.sum_append, List.map_map]
    have hcomp : ((fun w : Clip => w.stop - w.start) ∘
        fun i : ℕ => (⟨s + i * c, s + (i + 1) * c, i⟩ : Clip)) = fun _ : ℕ => c := by
      funext i
      simp only [Function.comp_apply]
      ring
    rw [hcomp]
    have hconst : ((List.range q).map fun _ : ℕ => c).sum = (q:ℚ) * c := by
      rw [List.map_const', List.sum_replicate, List.length_range, nsmul_eq_mul]
    rw [hconst]
    by_cases hcase : 3 ≤ (e - s) - ((q:ℕ):ℚ) * c
    · rw [if_pos hcase]
      simp only [List.map_cons, List.map_nil, List.sum_cons, List.sum_nil]
      linarith
    · rw [if_neg hcase]
      simp only [List.map_nil, List.sum_nil]
      linarith
  · unfold claimed_windows
    apply chain'_map_range_append
    · intro i _
      show s + ((i:ℚ) + 1) * c = s + ((i + 1 : ℕ) : ℚ) * c
      push_cast
      ring
    · intro y hy
      refine Or.inr ?_
      by_cases hcase : 3 ≤ (e - s) - ((q:ℕ):ℚ) * c
      · rw [if_pos hcase] at hy
        simp only [List.head?_cons, Option.mem_def, Option.some.injEq] at hy
        subst hy
        show s + (((q - 1 : ℕ):ℚ) + 1) * c = s + ((q:ℕ):ℚ) * c
        have hcast : ((q - 1 : ℕ) : ℚ) = ((q:ℕ):ℚ) - 1 := by
          rw [Nat.cast_sub hq1]
          norm_num
        rw [hcast]
        ring
      · rw [if_neg hcase] at hy
        simp at hy
    · by_cases hcase : 3 ≤ (e - s) - ((q:ℕ):ℚ) * c
      · rw [if_pos hcase]
        simp
      · rw [if_neg hcase]
        simp
  · intro w hw hwlt
    unfold claimed_windows at hw
    rw [List.mem_append] at hw
    rcases hw with h | h
    · obtain ⟨i, _, rfl⟩ := List.mem_map.mp h
      show s + ((i:ℚ) + 1) * c - (s + (i:ℚ) * c) = c
      ring
    · by_cases hcase : 3 ≤ (e - s) - ((q:ℕ):ℚ) * c
      · rw [if_pos hcase] at h
        simp only [List.mem_singleton] at h
        subst h
        exact absurd hwlt (lt_irrefl q)
      · rw [if_neg hcase] at h
        simp at h
  · intro w hw hwq
    unfold claimed_windows at hw
    rw [List.mem_append] at hw
    rcases hw with h | h
    · obtain ⟨i, hi, rfl⟩ := List.mem_map.mp h
      rw [List.mem_range] at hi
      exact absurd hwq (Nat.ne_of_lt hi)
    · by_cases hcase : 3 ≤ (e - s) - ((q:ℕ):ℚ) * c
      · rw [if_pos hcase] at h
        simp only [List.mem_singleton] at h
        subst h
        refine ⟨?_, hcase⟩
        show e - (s + ((q:ℕ):ℚ) * c) = (e - s) - ((q:ℕ):ℚ) * c
        ring
      · rw [if_neg hcase] at h
        simp at h

/-- C3 counterexample: for the region `[0, 10)` and clip duration `2`
(which satisfies the claim's premise `D ≥ c > 0`) the code emits no
window at all, while the claim predicts `⌊10/2⌋ = 5` full windows: the
3-second minimum-length check discards every window once `c < 3`. -/
theorem c3_counterexample :
    extract_clips 0 10 2 = [] ∧ (0:ℚ) < 2 ∧ (2:ℚ) ≤ 10 - 0
      ∧ (⌊((10:ℚ) - 0) / 2⌋).toNat = 5 := by
  have hfl : ⌊((10:ℚ) - 0) / 2⌋ = 5 := by
    rw [Int.floor_eq_iff]
    constructor <;> norm_num
  refine ⟨?_, by norm_num, by norm_num, by rw [hfl]; rfl⟩
  unfold extract_clips extract_clips_loop
  norm_num

/-- C3 witness: the spec's own scenarios.  Region `[0, 305)` with clip
duration 10 gives 30 full windows plus the kept 5-second tail (31 clips);
region `[0, 302)` gives 30 full windows with the 2-second tail dropped. -/
theorem c3_witness :
    (3:ℚ) ≤ 10 ∧ (10:ℚ) ≤ 305 - 0
      ∧ (extract_clips 0 305 10).length = 31
      ∧ (extract_clips 0 302 10).length = 30 := by
  have h1 := c3_segmentation_amended 0 305 10 (by norm_num) (by norm_num)
  have h2 := c3_segmentation_amended 0 302 10 (by norm_num) (by norm_num)
  have h305 : ⌊((305:ℚ) - 0) / 10⌋ = 30 := by
    rw [Int.floor_eq_iff]
    constructor <;> norm_num
  have h302 : ⌊((302:ℚ) - 0) / 10⌋ = 30 := by
    rw [Int.floor_eq_iff]
    constructor <;> norm_num
  refine ⟨by norm_num, by norm_num, ?_, ?_⟩
  · rw [h1.2.1, h305]
    have ht : Int.toNat 30 = 30 := rfl
    rw [ht]
    norm_num
  · rw [h2.2.1, h302]
    have ht : Int.toNat 30 = 30 := rfl
    rw [ht]
    norm_num

/-- C8 counterexample: calling the segmenter with `clip_duration = 0` on
the region `[0, 10)` returns normally with the empty list instead of
raising a configuration error. -/
theorem c8_counterexample : extract_clips_run 0 10 0 = Except.ok [] := by
  unfold extract_clips_run extract_clips extract_clips_loop
  norm_num

/-- C8 (amended): `_extract_clips` performs no validation of
`clip_duration`: for every `clip_duration ≤ 0` the call returns normally
with the empty clip list (the first window already fails the 3-second
minimum check), and no error is raised. -/
theorem c8_no_error_on_nonpositive_duration (s e c : ℚ) (h : c ≤ 0) :
    extract_clips_run s e c = Except.ok [] := by
  unfold extract_clips_run extract_clips
  by_cases ht : s < e
  · have hmin : min (s + c) e = s + c := min_eq_left (by linarith)
    rw [extract_clips_loop_break e c s 0 ht (by rw [hmin]; linarith)]
  · rw [extract_clips_loop_of_not_lt e c s 0 ht]

/-- C8 witness: a concrete non-positive clip duration. -/
theorem c8_witness : (-5:ℚ) ≤ 0 ∧ extract_clips_run 2 9 (-5) = Except.ok [] :=
  ⟨by norm_num, c8_no_error_on_nonpositive_duration 2 9 (-5) (by norm_num)⟩

/-! ## Audio feature extraction (`video_processor.py` lines 132-210) -/

/-- `np.mean` over a sample sequence. -/
noncomputable def npMean (l : List ℝ) : ℝ := l.sum / l.length

/-- `np.std` (population standard deviation, numpy's default). -/
noncomputable def npStd (l : List ℝ) : ℝ :=
  Real.sqrt (npMean (l.map fun x => (x - npMean l) ^ 2))

/-- The librosa DSP transforms the repository calls, kept opaque as
external operations: `librosa.feature.mfcc` with `n_mfcc = 13` (indexed
below by the row number of the returned 13-row matrix),
`librosa.feature.spectral_centroid`, `spectral_rolloff`,
`spectral_bandwidth`, `zero_crossing_rate`, and `librosa.beat.beat_track`
returning the `(tempo, beats)` pair. -/
structure LibrosaOps where
  mfcc : List ℝ → ℕ → List ℝ
  spectral_centroid : List ℝ → List ℝ
  spectral_rolloff : List ℝ → List ℝ
  spectral_bandwidth : List ℝ → List ℝ
  zero_crossing_rate : List ℝ → List ℝ
  beat_track : List ℝ → ℝ × List ℝ

/-- The feature dictionary built by
`VideoProcessor._extract_single_clip_features` (video_processor.py lines
169-204) as an ordered association list: Python dicts preserve insertion
order, so the `{**mfcc_features, **mfcc_std_features, ...}` merge fixes
the column order of the resulting dataset.  `mfccs.shape[0] = 13` because
the call passes `n_mfcc=13`; `audio_length = len(y)/sr` with `sr = 22050`
fixed by `librosa.load`; `audio_rms = np.sqrt(np.mean(y**2))`. -/
noncomputable def single_clip_feature_dict (ops : LibrosaOps) (y : List ℝ) : List (String × ℝ) :=
  ((List.range 13).map fun i => ("mfcc_" ++ toString i ++ "_mean", npMean (ops.mfcc y i))) ++
  ((List.range 13).map fun i => ("mfcc_" ++ toString i ++ "_std", npStd (ops.mfcc y i))) ++
  [("spectral_centroid_mean", npMean (ops.spectral_centroid y)),
   ("spectral_centroid_std", npStd (ops.spectral_centroid y)),
   ("spectral_rolloff_mean", npMean (ops.spectral_rolloff y)),
   ("spectral_rolloff_std", npStd (ops.spectral_rolloff y)),
   ("spectral_bandwidth_mean", npMean (ops.spectral_bandwidth y)),
   ("spectral_bandwidth_std", npStd (ops.spectral_bandwidth y)),
   ("zero_crossing_rate_mean", npMean (ops.zero_crossing_rate y)),
   ("zero_crossing_rate_std", npStd (ops.zero_crossing_rate y)),
   ("tempo", (ops.beat_track y).1),
   ("audio_length", (y.length : ℝ) / 22050),
   ("audio_rms", Real.sqrt (npMean (y.map fun v => v ^ 2)))]

/-- Outcome of `librosa.load(clip_path, sr=22050, duration=10)` together
with the rest of the clip-level try/except: `err` stands for any
exception raised while decoding the clip or computing its features
(caught at lines 208-210, producing `None`); `ok y` is a successfully
decoded sample buffer, already resampled to 22050 Hz and truncated to at
most 10 seconds. -/
inductive LoadResult where
  | err : LoadResult
  | ok : List ℝ → LoadResult

/-- `VideoProcessor._extract_single_clip_features` (lines 160-210):
`None` when loading raised or the decoded buffer is empty
(`len(y) == 0`), otherwise the ordered feature dictionary. -/
noncomputable def extract_single_clip_features (ops : LibrosaOps) (load : String → LoadResult)
    (clip_path : String) : Option (List (String × ℝ)) :=
  match load clip_path with
  | .err => none
  | .ok y => if y.length = 0 then none else some (single_clip_feature_dict ops y)

/-- One row of the features table: the extracted feature dictionary with
the `label` and `clip_path` entries that `extract_audio_features` appends
to the dict before collecting it. -/
structure LabeledRow where
  features : List (String × ℝ)
  label : String
  clip_path : String

/-- `VideoProcessor.extract_audio_features` (lines 132-158): iterate over
the clip paths in order, appending a labeled row for each successful
extraction and skipping (only logging) each failed clip. -/
noncomputable def extract_audio_features (ops : LibrosaOps) (load : String → LoadResult)
    (label : String) : List String → List LabeledRow
  | [] => []
  | p :: ps =>
    match extract_single_clip_features ops load p with
    | some d => ⟨d, label, p⟩ :: extract_audio_features ops load label ps
    | none => extract_audio_features ops load label ps

/-- Column order of `pd.DataFrame(features_list)` as persisted by
`save_features`: for a non-empty list of uniform-key dictionaries the
DataFrame adopts the first row's key order; the `label` and `clip_path`
keys were inserted after the feature keys. -/
def data_frame_columns (rows : List LabeledRow) : List String :=
  match rows with
  | [] => []
  | r :: _ => r.features.map Prod.fst ++ ["label", "clip_path"]

/-- The canonical feature order exactly as the claims list it: 13 MFCC
means, 13 MFCC standard deviations, spectral centroid / rolloff /
bandwidth and zero-crossing-rate mean/std pairs, tempo, audio duration,
RMS amplitude (37 names). -/
def spec_canonical_feature_order : List String :=
  ["mfcc_0_mean", "mfcc_1_mean", "mfcc_2_mean", "mfcc_3_mean", "mfcc_4_mean",
   "mfcc_5_mean", "mfcc_6_mean", "mfcc_7_mean", "mfcc_8_mean", "mfcc_9_mean",
   "mfcc_10_mean", "mfcc_11_mean", "mfcc_12_mean",
   "mfcc_0_std", "mfcc_1_std", "mfcc_2_std", "mfcc_3_std", "mfcc_4_std",
   "mfcc_5_std", "mfcc_6_std", "mfcc_7_std", "mfcc_8_std", "mfcc_9_std",
   "mfcc_10_std", "mfcc_11_std", "mfcc_12_std",
   "spectral_centroid_mean", "spectral_centroid_std",
   "spectral_rolloff_mean", "spectral_rolloff_std",
   "spectral_bandwidth_mean", "spectral_bandwidth_std",
   "zero_crossing_rate_mean", "zero_crossing_rate_std",
   "tempo", "audio_length", "audio_rms"]

lemma single_clip_feature_keys (ops : LibrosaOps) (y : List ℝ) :
    (single_clip_feature_dict ops y).map Prod.fst = spec_canonical_feature_order := rfl

lemma mem_extract_audio_features (ops : LibrosaOps) (load : String → LoadResult)
    (label : String) : ∀ (ps : List String) (r : LabeledRow),
      r ∈ extract_audio_features ops load label ps →
      ∃ y, r.features = single_clip_feature_dict ops y := by
  intro ps
  induction ps with
  | nil =>
    intro r hr
    simp [extract_audio_features] at hr
  | cons p ps ih =>
    intro r hr
    cases hx : extract_single_clip_features ops load p with
    | none =>
      rw [extract_audio_features, hx] at hr
      exact ih r hr
    | some d =>
      rw [extract_audio_features, hx] at hr
      rcases List.mem_cons.mp hr with h | h
      · subst h
        cases hl : load p with
        | err =>
          simp only [extract_single_clip_features, hl] at hx
          exact absurd hx (by simp)
        | ok y =>
          simp only [extract_single_clip_features, hl] at hx
          by_cases hy : y.length = 0
          · rw [if_pos hy] at hx
            exact absurd hx (by simp)
          · rw [if_neg hy] at hx
            injection hx with hx
            exact ⟨y, hx.symm⟩
      · exact ih r h

/-- C1: every clip's feature row lists its values in the canonical order,
the persisted dataset table has exactly those feature columns in that
order followed by `label` and then `clip_path`, and the table has one row
per successfully extracted clip (in order). -/
theorem c1_feature_and_column_order (ops : LibrosaOps) (load : String → LoadResult)
    (label : String) (clip_paths : List String) :
    (∀ y, (single_clip_feature_dict ops y).map Prod.fst = spec_canonical_feature_order)
    ∧ (extract_audio_features ops load label clip_paths).map LabeledRow.clip_path
        = clip_paths.filter (fun p => (extract_single_clip_features ops load p).isSome)
    ∧ (extract_audio_features ops load label clip_paths ≠ [] →
        data_frame_columns (extract_audio_features ops load label clip_paths)
          = spec_canonical_feature_order ++ ["label", "clip_path"]) := by
  refine ⟨fun y => single_clip_feature_keys ops y, ?_, ?_⟩
  · induction clip_paths with
    | nil => rfl
    | cons p ps ih =>
      cases hx : extract_single_clip_features ops load p with
      | some d => simp [extract_audio_features, hx, ih]
      | none => simp [extract_audio_features, hx, ih]
  · intro hne
    cases hrows : extract_audio_features ops load label clip_paths with
    | nil => exact absurd hrows hne
    | cons r rest =>
      have hr : r ∈ extract_audio_features ops load label clip_paths := by
        rw [hrows]
        exact List.mem_cons_self r rest
      obtain ⟨y, hy⟩ := mem_extract_audio_features ops load label clip_paths r hr
      rw [data_frame_columns, hy, single_clip_feature_keys]

/-- A stub instantiation of the external librosa transforms, used to
witness the claims at concrete inputs. -/
noncomputable def ops0 : LibrosaOps :=
  ⟨fun _ _ => [], fun _ => [], fun _ => [], fun _ => [], fun _ => [], fun _ => (0, [])⟩

/-- A loader that decodes every clip to the one-sample buffer `[1]`. -/
noncomputable def load_ok : String → LoadResult := fun _ => .ok [1]

/-- A loader whose decode raises exactly on the clip named `"bad"`. -/
noncomputable def load_with_bad : String → LoadResult :=
  fun p => if p = "bad" then .err else .ok [1]

/-- C1 witness: a concrete one-clip batch, with the resulting table
columns evaluated. -/
theorem c1_witness :
    extract_audio_features ops0 load_ok "ad" ["clip0"] ≠ []
    ∧ data_frame_columns (extract_audio_features ops0 load_ok "ad" ["clip0"])
        = spec_canonical_feature_order ++ ["label", "clip_path"]
    ∧ (extract_audio_features ops0 load_ok "ad" ["clip0"]).map LabeledRow.clip_path
        = ["clip0"] := by
  have h := c1_feature_and_column_order ops0 load_ok "ad" ["clip0"]
  have hne : extract_audio_features ops0 load_ok "ad" ["clip0"] ≠ [] := by
    rw [extract_audio_features]
    rw [show extract_single_clip_features ops0 load_ok "clip0"
        = some (single_clip_feature_dict ops0 [1]) from rfl]
    simp
  refine ⟨hne, h.2.2 hne, ?_⟩
  rw [h.2.1]
  rfl

/-- C2 counterexample: a successfully extracted feature vector has 37
entries, not 39 — the canonical list 13+13+2+2+2+2+1+1+1 sums to 37. -/
theorem c2_counterexample :
    extract_single_clip_features ops0 load_ok "clip0"
        = some (single_clip_feature_dict ops0 [1])
    ∧ (single_clip_feature_dict ops0 [1]).length = 37
    ∧ (37 : ℕ) ≠ 39 := by
  refine ⟨?_, ?_, ?_⟩
  · rfl
  · rfl
  · decide

/-- C2 (amended): for every valid (non-empty) decoded audio buffer,
regardless of duration or content, the extracted feature vector has
exactly 37 entries. -/
theorem c2_vector_length (ops : LibrosaOps) (load : String → LoadResult)
    (clip_path : String) (y : List ℝ) (hload : load clip_path = .ok y)
    (hy : y.length ≠ 0) :
    extract_single_clip_features ops load clip_path
        = some (single_clip_feature_dict ops y)
    ∧ (single_clip_feature_dict ops y).length = 37 := by
  constructor
  · simp only [extract_single_clip_features, hload]
    rw [if_neg hy]
  · rfl

/-- C2 witness: the amended length statement at a concrete non-empty
buffer. -/
theorem c2_witness :
    load_ok "clip1" = LoadResult.ok [1] ∧ ([1] : List ℝ).length ≠ 0
    ∧ extract_single_clip_features ops0 load_ok "clip1"
        = some (single_clip_feature_dict ops0 [1])
    ∧ (single_clip_feature_dict ops0 [1]).length = 37 := by
  have h := c2_vector_length ops0 load_ok "clip1" [1] rfl (by decide)
  exact ⟨rfl, by decide, h.1, h.2⟩

/-- C9: a failing clip (decode error, empty buffer, or any exception
during feature computation — all of which make
`_extract_single_clip_features` yield `None`) contributes no row and is
simply skipped, while extraction of every other clip in the batch
proceeds; the rows are exactly the successful clips' rows, in order. -/
theorem c9_per_clip_failure_isolated (ops : LibrosaOps) (load : String → LoadResult)
    (label : String) (pre post : List String) (bad : String)
    (hbad : extract_single_clip_features ops load bad = none) :
    extract_audio_features ops load label (pre ++ bad :: post)
        = extract_audio_features ops load label (pre ++ post)
    ∧ ∀ ps : List String,
        extract_audio_features ops load label ps
          = ps.filterMap fun p => (extract_single_clip_features ops load p).map
              fun d => LabeledRow.mk d label p := by
  have hfm : ∀ ps : List String,
      extract_audio_features ops load label ps
        = ps.filterMap fun p => (extract_single_clip_features ops load p).map
            fun d => LabeledRow.mk d label p := by
    intro ps
    induction ps with
    | nil => rfl
    | cons p ps ih =>
      cases hx : extract_single_clip_features ops load p with
      | some d => simp [extract_audio_features, hx, ih, List.filterMap_cons]
      | none => simp [extract_audio_features, hx, ih, List.filterMap_cons]
  refine ⟨?_, hfm⟩
  rw [hfm, hfm, List.filterMap_append, List.filterMap_append, List.filterMap_cons, hbad]
  simp

/-- C9 witness: a three-clip batch whose middle clip fails to decode
yields the same rows as the batch without it. -/
theorem c9_witness :
    extract_single_clip_features ops0 load_with_bad "bad" = none
    ∧ extract_audio_features ops0 load_with_bad "ad" ["a", "bad", "b"]
        = extract_audio_features ops0 load_with_bad "ad" ["a", "b"] := by
  have hbad : extract_single_clip_features ops0 load_with_bad "bad" = none := by
    rw [extract_single_clip_features]
    rw [show load_with_bad "bad" = LoadResult.err from by rw [load_with_bad]; simp]
  exact ⟨hbad,
    (c9_per_clip_failure_isolated ops0 load_with_bad "ad" ["a"] ["b"] "bad" hbad).1⟩

/-! ## Model artifacts and `test_model` scoring
(`train_pipeline.py` lines 84-139, `model_trainer.py` lines 266-304) -/

/-- The JSON model artifact written by
`AdDetectorTrainer.create_simple_js_model` (model_trainer.py lines
266-304), discriminated by its `type` field: `simple_rules` carries
`feature_names`, `feature_importances`, the scaler arrays and a
`threshold`; `logistic_regression` carries `feature_names`,
`coefficients`, `intercept` and the scaler arrays. -/
inductive JsModel where
  | simple_rules (feature_names : List String) (feature_importances : List ℝ)
      (scaler_mean scaler_scale : List ℝ) (threshold : ℝ)
  | logistic_regression (feature_names : List String) (coefficients : List ℝ)
      (intercept : ℝ) (scaler_mean scaler_scale : List ℝ)

/-- The artifact's `scaler_mean` array (present in both variants). -/
def JsModel.scalerMean : JsModel → List ℝ
  | .simple_rules _ _ m _ _ => m
  | .logistic_regression _ _ _ m _ => m

/-- The artifact's `scaler_scale` array (present in both variants). -/
def JsModel.scalerScale : JsModel → List ℝ
  | .simple_rules _ _ _ s _ => s
  | .logistic_regression _ _ _ _ s => s

/-- The list comprehension at train_pipeline.py lines 112-115:
`normalized_features[i] = (features[i] - scaler_mean[i]) / scaler_scale[i]`
for `i in range(len(scaler_mean))`.  Out-of-range reads (on which Python
would fault) default to 0; every theorem below stays within range. -/
noncomputable def normalize_features (scaler_mean scaler_scale features : List ℝ) : List ℝ :=
  (List.range scaler_mean.length).map fun i =>
    (features.getD i 0 - scaler_mean.getD i 0) / scaler_scale.getD i 0

/-- `sum(xs[i] * ys[i] for i in range(len(xs)))`. -/
noncomputable def dotRange (xs ys : List ℝ) : ℝ :=
  ((List.range xs.length).map fun i => xs.getD i 0 * ys.getD i 0).sum

/-- What the `test_model` CLI command reports: the dimension-mismatch
error message, or a prediction (printed for both variants) together with
the confidence value (printed only for logistic-regression artifacts). -/
inductive TestModelResult where
  | mismatch : TestModelResult
  | scored : String → Option ℝ → TestModelResult

open Classical in
/-- Scoring portion of the `test_model` command (train_pipeline.py lines
110-139): proceed exactly when `len(features) >= len(scaler_mean)`,
normalize the first `len(scaler_mean)` entries, then dispatch on the
artifact's `type`: `simple_rules` compares the importance-weighted sum
against the threshold and prints no confidence; `logistic_regression`
forms the linear combination, applies the sigmoid and prints the
probability as confidence.  Otherwise print the dimension-mismatch
error. -/
noncomputable def test_model (model : JsModel) (features : List ℝ) : TestModelResult :=
  if model.scalerMean.length ≤ features.length then
    match model with
    | .simple_rules _ feature_importances scaler_mean scaler_scale threshold =>
      TestModelResult.scored
        (if threshold <
            dotRange (normalize_features scaler_mean scaler_scale features) feature_importances
         then "AD" else "PROGRAM")
        none
    | .logistic_regression _ coefficients intercept scaler_mean scaler_scale =>
      TestModelResult.scored
        (if 1 / 2 < 1 / (1 + Real.exp (-(intercept +
            dotRange (normalize_features scaler_mean scaler_scale features) coefficients)))
         then "AD" else "PROGRAM")
        (some (1 / (1 + Real.exp (-(intercept +
            dotRange (normalize_features scaler_mean scaler_scale features) coefficients)))))
  else
    TestModelResult.mismatch

/-- The simplified 28-entry feature vector the `test_model` command
builds from the first 30 seconds of audio (train_pipeline.py lines
100-108): for each of the 13 MFCC rows the mean and std are appended as
a pair, then the spectral-centroid mean and std. -/
noncomputable def test_model_features (ops : LibrosaOps) (y : List ℝ) : List ℝ :=
  ((List.range 13).flatMap fun i => [npMean (ops.mfcc y i), npStd (ops.mfcc y i)]) ++
  [npMean (ops.spectral_centroid y), npStd (ops.spectral_centroid y)]

lemma test_model_short (model : JsModel) (features : List ℝ)
    (h : features.length < model.scalerMean.length) :
    test_model model features = TestModelResult.mismatch := by
  unfold test_model
  rw [if_neg (not_le.mpr h)]

lemma test_model_simple_rules (names : List String) (imps mean scale : List ℝ)
    (threshold : ℝ) (features : List ℝ) (hle : mean.length ≤ features.length) :
    test_model (.simple_rules names imps mean scale threshold) features
      = TestModelResult.scored
          (if threshold < dotRange (normalize_features mean scale features) imps
           then "AD" else "PROGRAM")
          none := by
  unfold test_model
  rw [if_pos (show (JsModel.simple_rules names imps mean scale threshold).scalerMean.length
      ≤ features.length from hle)]

lemma test_model_logistic (names : List String) (coefficients : List ℝ) (intercept : ℝ)
    (mean scale : List ℝ) (features : List ℝ) (hle : mean.length ≤ features.length) :
    test_model (.logistic_regression names coefficients intercept mean scale) features
      = TestModelResult.scored
          (if 1 / 2 < 1 / (1 + Real.exp (-(intercept +
              dotRange (normalize_features mean scale features) coefficients)))
           then "AD" else "PROGRAM")
          (some (1 / (1 + Real.exp (-(intercept +
              dotRange (normalize_features mean scale features) coefficients))))) := by
  unfold test_model
  rw [if_pos (show (JsModel.logistic_regression names coefficients intercept mean
      scale).scalerMean.length ≤ features.length from hle)]

lemma prob_gt_half_iff (z : ℝ) : 1 / 2 < 1 / (1 + Real.exp (-z)) ↔ 0 < z := by
  have h1 : (0:ℝ) < 1 + Real.exp (-z) := by positivity
  rw [div_lt_div_iff (by norm_num) h1]
  rw [show (1:ℝ) * (1 + Real.exp (-z)) = 1 + Real.exp (-z) by ring,
      show (1:ℝ) * 2 = 2 by ring]
  constructor
  · intro h
    have hE : Real.exp (-z) < Real.exp 0 := by rw [Real.exp_zero]; linarith
    have := Real.exp_lt_exp.mp hE
    linarith
  · intro h
    have hE : Real.exp (-z) < Real.exp 0 := Real.exp_lt_exp.mpr (by linarith)
    rw [Real.exp_zero] at hE
    linarith

lemma getD_range_map (f : ℕ → ℝ) (n i : ℕ) (d : ℝ) (h : i < n) :
    ((List.range n).map f).getD i d = f i := by
  rw [List.getD_eq_getD_get?, List.get?_map, List.get?_range h]
  rfl

lemma getD_take_of_lt (l : List ℝ) (n i : ℕ) (d : ℝ) (h : i < n) :
    (l.take n).getD i d = l.getD i d := by
  rw [List.getD_eq_getD_get?, List.getD_eq_getD_get?, List.get?_take h]

/-- C4: for a logistic-regression artifact whose lengths match the
vector, `test_model` normalizes each entry with the scaler, forms
`z = intercept + Σ coefficients[i]*normalized[i]`, takes
`probability = 1/(1+e^(-z))`, decides `AD` exactly when the probability
exceeds 1/2 (equivalently `z > 0`), and reports that probability itself
as the confidence. -/
theorem c4_logistic_scoring (names : List String) (coefficients : List ℝ) (intercept : ℝ)
    (scaler_mean scaler_scale : List ℝ) (features : List ℝ)
    (hv : features.length = scaler_mean.length)
    (_hc : coefficients.length = scaler_mean.length) :
    test_model (.logistic_regression names coefficients intercept scaler_mean scaler_scale)
        features
      = TestModelResult.scored
          (if 1 / 2 < 1 / (1 + Real.exp (-(intercept +
              dotRange (normalize_features scaler_mean scaler_scale features) coefficients)))
           then "AD" else "PROGRAM")
          (some (1 / (1 + Real.exp (-(intercept +
              dotRange (normalize_features scaler_mean scaler_scale features) coefficients)))))
    ∧ (1 / 2 < 1 / (1 + Real.exp (-(intercept +
          dotRange (normalize_features scaler_mean scaler_scale features) coefficients)))
        ↔ 0 < intercept +
            dotRange (normalize_features scaler_mean scaler_scale features) coefficients)
    ∧ ∀ i < scaler_mean.length,
        (normalize_features scaler_mean scaler_scale features).getD i 0
          = (features.getD i 0 - scaler_mean.getD i 0) / scaler_scale.getD i 0 := by
  refine ⟨test_model_logistic names coefficients intercept scaler_mean scaler_scale features
      hv.symm.le, prob_gt_half_iff _, ?_⟩
  intro i hi
  unfold normalize_features
  exact getD_range_map _ _ _ _ hi

/-- C4 witness: the spec's scenario — intercept 0, coefficients `[1]`,
identity scaler, vector `[2]` gives `z = 2`, the decision `AD`, and a
confidence equal to the probability `1/(1+e^(-2)) ≈ 0.8808`. -/
theorem c4_witness :
    test_model (JsModel.logistic_regression [] [1] 0 [0] [1]) [2]
        = TestModelResult.scored "AD" (some (1 / (1 + Real.exp (-(2:ℝ)))))
    ∧ 0.8807 < 1 / (1 + Real.exp (-(2:ℝ)))
    ∧ 1 / (1 + Real.exp (-(2:ℝ))) < 0.8809 := by
  have h := c4_logistic_scoring [] [1] 0 [0] [1] [2] (by simp) (by simp)
  have hz : (0:ℝ) + dotRange (normalize_features [0] [1] [2]) [1] = 2 := by
    have hr1 : List.range 1 = [0] := rfl
    simp [normalize_features, dotRange, hr1]
  obtain ⟨h1, h2, -⟩ := h
  rw [hz] at h1 h2
  have hp : 1 / 2 < 1 / (1 + Real.exp (-(2:ℝ))) := h2.mpr (by norm_num)
  rw [if_pos hp] at h1
  have he1 := Real.exp_one_gt_d9
  have he2 := Real.exp_one_lt_d9
  have hE : (0:ℝ) < Real.exp 1 := Real.exp_pos 1
  have hexp2 : Real.exp (-(2:ℝ)) = (Real.exp 1 * Real.exp 1)⁻¹ := by
    rw [← Real.exp_add, ← Real.exp_neg]
    norm_num
  have hlo : (7.389:ℝ) < Real.exp 1 * Real.exp 1 := by nlinarith
  have hhi : Real.exp 1 * Real.exp 1 < 7.3890561 := by nlinarith
  have hpos : (0:ℝ) < Real.exp 1 * Real.exp 1 := by positivity
  have hform : 1 / (1 + Real.exp (-(2:ℝ)))
      = (Real.exp 1 * Real.exp 1) / (Real.exp 1 * Real.exp 1 + 1) := by
    rw [hexp2]
    field_simp
  refine ⟨h1, ?_, ?_⟩
  · rw [hform, lt_div_iff (by positivity)]
    nlinarith
  · rw [hform, div_lt_iff (by positivity)]
    nlinarith

/-- C5 counterexample: a two-entry vector scored against a one-feature
logistic artifact — the lengths differ, yet `test_model` silently
truncates the vector to the model's length and produces a decision
instead of the claimed dimension-mismatch failure (the guard is
`len(features) >= len(scaler_mean)`, not equality). -/
theorem c5_counterexample :
    ([2, 100] : List ℝ).length
        ≠ (JsModel.logistic_regression [] [1] 0 [0] [1]).scalerMean.length
    ∧ test_model (JsModel.logistic_regression [] [1] 0 [0] [1]) [2, 100]
        = TestModelResult.scored "AD" (some (1 / (1 + Real.exp (-(2:ℝ)))))
    ∧ test_model (JsModel.logistic_regression [] [1] 0 [0] [1]) [2, 100]
        ≠ TestModelResult.mismatch := by
  have hz : (0:ℝ) + dotRange (normalize_features [0] [1] [2, 100]) [1] = 2 := by
    have hr1 : List.range 1 = [0] := rfl
    simp [normalize_features, dotRange, hr1]
  have h1 := test_model_logistic [] [1] 0 [0] [1] [2, 100] (by simp)
  rw [hz] at h1
  rw [if_pos ((prob_gt_half_iff 2).mpr (by norm_num))] at h1
  refine ⟨by simp [JsModel.scalerMean], h1, ?_⟩
  rw [h1]
  exact fun hcontra => TestModelResult.noConfusion hcontra

/-- C5 (amended): `test_model` reports the dimension mismatch exactly
when the vector is shorter than the model's scaler arrays; when it is at
least as long, the extra entries are silently ignored — scoring equals
scoring of the truncated vector — and a decision is produced. -/
theorem c5_dimension_check_amended (model : JsModel) (features : List ℝ) :
    (features.length < model.scalerMean.length →
      test_model model features = TestModelResult.mismatch)
    ∧ (model.scalerMean.length ≤ features.length →
      test_model model features
        = test_model model (features.take model.scalerMean.length)) := by
  constructor
  · exact fun h => test_model_short model features h
  · intro hle
    have hnf : ∀ mean scale : List ℝ, mean = model.scalerMean →
        normalize_features mean scale (features.take model.scalerMean.length)
          = normalize_features mean scale features := by
      intro mean scale hmean
      unfold normalize_features
      apply List.map_congr_left
      intro i hi
      rw [List.mem_range] at hi
      rw [getD_take_of_lt features model.scalerMean.length i 0 (by rw [← hmean]; exact hi)]
    have hlen : (features.take model.scalerMean.length).length = model.scalerMean.length := by
      rw [List.length_take]
      exact Nat.min_eq_left hle
    cases model with
    | simple_rules names imps mean scale threshold =>
      rw [test_model_simple_rules names imps mean scale threshold features hle,
        test_model_simple_rules names imps mean scale threshold _ hlen.ge,
        hnf mean scale rfl]
    | logistic_regression names coefficients intercept mean scale =>
      rw [test_model_logistic names coefficients intercept mean scale features hle,
        test_model_logistic names coefficients intercept mean scale _ hlen.ge,
        hnf mean scale rfl]

/-- C5 witness: the mismatch branch fires for a too-short vector, and a
too-long vector scores identically to its truncation. -/
theorem c5_witness :
    (([2] : List ℝ).length < (JsModel.logistic_regression [] [1] 0 [0, 0] [1, 1]).scalerMean.length
      ∧ test_model (JsModel.logistic_regression [] [1] 0 [0, 0] [1, 1]) [2]
          = TestModelResult.mismatch)
    ∧ ((JsModel.logistic_regression [] [1] 0 [0] [1]).scalerMean.length
          ≤ ([2, 100] : List ℝ).length
      ∧ test_model (JsModel.logistic_regression [] [1] 0 [0] [1]) [2, 100]
          = test_model (JsModel.logistic_regression [] [1] 0 [0] [1])
              (([2, 100] : List ℝ).take
                (JsModel.logistic_regression [] [1] 0 [0] [1]).scalerMean.length)) := by
  constructor
  · refine ⟨by simp [JsModel.scalerMean], ?_⟩
    exact (c5_dimension_check_amended (JsModel.logistic_regression [] [1] 0 [0, 0] [1, 1]) [2]).1
      (by simp [JsModel.scalerMean])
  · refine ⟨by simp [JsModel.scalerMean], ?_⟩
    exact (c5_dimension_check_amended (JsModel.logistic_regression [] [1] 0 [0] [1]) [2, 100]).2
      (by simp [JsModel.scalerMean])

/-- C6 counterexample: a weighted-rule (`simple_rules`) artifact scored
against a matching vector produces the decision but *no* confidence
value — the `test_model` command prints a confidence only in the
`logistic_regression` branch, so the weighted sum (here 2) is never
reported. -/
theorem c6_counterexample :
    test_model (JsModel.simple_rules [] [1] [0] [1] 0) [2]
        = TestModelResult.scored "AD" none
    ∧ TestModelResult.scored "AD" none
        ≠ TestModelResult.scored "AD" (some (dotRange (normalize_features [0] [1] [2]) [1])) := by
  have hws : dotRange (normalize_features [0] [1] [2]) [1] = 2 := by
    have hr1 : List.range 1 = [0] := rfl
    simp [normalize_features, dotRange, hr1]
  have h1 := test_model_simple_rules [] [1] [0] [1] 0 [2] (by simp)
  rw [hws] at h1
  rw [if_pos (by norm_num : (0:ℝ) < 2)] at h1
  exact ⟨h1, by simp⟩

/-- C6 (amended): for a `simple_rules` artifact whose lengths match the
vector, `test_model` normalizes with the scaler, forms
`weightedSum = Σ featureImportances[i]*normalized[i]` and decides `AD`
exactly when the weighted sum exceeds the threshold — but it reports no
confidence value at all (the weighted sum is not printed; confidence is
printed only for logistic-regression artifacts). -/
theorem c6_weighted_rule_scoring (names : List String) (imps mean scale : List ℝ)
    (threshold : ℝ) (features : List ℝ)
    (hv : features.length = mean.length) (_hi : imps.length = mean.length) :
    test_model (.simple_rules names imps mean scale threshold) features
      = TestModelResult.scored
          (if threshold < dotRange (normalize_features mean scale features) imps
           then "AD" else "PROGRAM")
          none :=
  test_model_simple_rules names imps mean scale threshold features hv.symm.le

/-- C6 witness: a concrete weighted-rule artifact below threshold gives
the `PROGRAM` decision with no confidence reported. -/
theorem c6_witness :
    ([4] : List ℝ).length = ([0] : List ℝ).length
    ∧ ([1] : List ℝ).length = ([0] : List ℝ).length
    ∧ test_model (JsModel.simple_rules [] [1] [0] [1] 10) [4]
        = TestModelResult.scored "PROGRAM" none := by
  have h := c6_weighted_rule_scoring [] [1] [0] [1] 10 [4] (by simp) (by simp)
  have hws : dotRange (normalize_features [0] [1] [4]) [1] = 4 := by
    have hr1 : List.range 1 = [0] := rfl
    simp [normalize_features, dotRange, hr1]
  rw [hws] at h
  rw [if_neg (by norm_num : ¬ (10:ℝ) < 4)] at h
  exact ⟨by simp, by simp, h⟩

open Classical in
/-- Modelled from the spec (§4.4): the guarded normalization the claim
describes, treating a zero `scale_i` as 1.  No such guard exists anywhere
in the repository; this definition exists only to be compared against the
repository's `normalize_features`. -/
noncomputable def normalize_features_guarded (scaler_mean scaler_scale features : List ℝ) :
    List ℝ :=
  (List.range scaler_mean.length).map fun i =>
    (features.getD i 0 - scaler_mean.getD i 0) /
      (if scaler_scale.getD i 0 = 0 then 1 else scaler_scale.getD i 0)

/-- C7 counterexample: an artifact with `scaler_scale = [0]` is consumed
by `test_model` without any rejection — a decision is still produced —
and the unguarded normalization differs from the guarded (scale-as-1)
normalization the claim requires.  (In the real-number embedding the
division by the zero scale yields the junk value 0; in Python's float
arithmetic the same expression produces a non-finite value.) -/
theorem c7_counterexample :
    (JsModel.simple_rules [] [1] [0] [0] (-1)).scalerScale.getD 0 0 = 0
    ∧ test_model (JsModel.simple_rules [] [1] [0] [0] (-1)) [2]
        = TestModelResult.scored "AD" none
    ∧ normalize_features [0] [0] [2] ≠ normalize_features_guarded [0] [0] [2] := by
  have hr1 : List.range 1 = [0] := rfl
  refine ⟨by simp [JsModel.scalerScale], ?_, ?_⟩
  · have hws : dotRange (normalize_features [0] [0] [2]) [1] = 0 := by
      simp [normalize_features, dotRange, hr1]
    have h1 := test_model_simple_rules [] [1] [0] [0] (-1) [2] (by simp)
    rw [hws] at h1
    rw [if_pos (by norm_num : (-1:ℝ) < 0)] at h1
    exact h1
  · have h1 : normalize_features [0] [0] [2] = [0] := by
      simp [normalize_features, hr1]
    have h2 : normalize_features_guarded [0] [0] [2] = [2] := by
      simp [normalize_features_guarded, hr1]
    rw [h1, h2]
    simp

/-- C7 (amended): the repository contains no zero-scale guard.  When some
`scale_i` is 0 and the vector matches the model's length, `test_model`
still returns a decision (no rejection), the normalized value at `i` is
the bare division by the zero scale (junk 0 here, a non-finite float in
Python), and it differs from the guarded value `(v_i - mean_i) / 1`
whenever `v_i ≠ mean_i`; the repository's training side (sklearn's
`StandardScaler` in `prepare_data`) is external code, and no
`DegenerateFeatureError` exists anywhere in the repository. -/
theorem c7_no_zero_scale_guard (names : List String) (imps mean scale features : List ℝ)
    (threshold : ℝ) (i : ℕ) (hv : features.length = mean.length) (hi : i < mean.length)
    (hs : scale.getD i 0 = 0) (hne : features.getD i 0 ≠ mean.getD i 0) :
    test_model (.simple_rules names imps mean scale threshold) features ≠ TestModelResult.mismatch
    ∧ (normalize_features mean scale features).getD i 0 = 0
    ∧ (normalize_features mean scale features).getD i 0
        ≠ (normalize_features_guarded mean scale features).getD i 0 := by
  have hgd : (normalize_features mean scale features).getD i 0 = 0 := by
    unfold normalize_features
    rw [getD_range_map _ _ _ _ hi, hs, div_zero]
  refine ⟨?_, hgd, ?_⟩
  · rw [test_model_simple_rules names imps mean scale threshold features hv.symm.le]
    exact fun hcontra => TestModelResult.noConfusion hcontra
  · rw [hgd]
    unfold normalize_features_guarded
    rw [getD_range_map _ _ _ _ hi, hs, if_pos rfl, div_one]
    exact fun hcontra => hne (by linarith [hcontra.symm, sub_eq_zero.mp hcontra.symm])

/-- C7 witness: the amended statement at the concrete zero-scale
artifact. -/
theorem c7_witness :
    (([2] : List ℝ).length = ([0] : List ℝ).length
      ∧ 0 < ([0] : List ℝ).length
      ∧ ([0] : List ℝ).getD 0 0 = 0
      ∧ ([2] : List ℝ).getD 0 0 ≠ ([0] : List ℝ).getD 0 0)
    ∧ test_model (JsModel.simple_rules [] [1] [0] [0] 5) [2] ≠ TestModelResult.mismatch
    ∧ (normalize_features [0] [0] [2]).getD 0 0 = 0
    ∧ (normalize_features [0] [0] [2]).getD 0 0
        ≠ (normalize_features_guarded [0] [0] [2]).getD 0 0 := by
  have h := c7_no_zero_scale_guard [] [1] [0] [0] [2] 5 0 (by simp) (by simp) (by simp)
    (by norm_num)
  exact ⟨⟨by simp, by simp, by simp, by norm_num⟩, h.1, h.2.1, h.2.2⟩

/-- C10: the `test_model` command always builds a 28-entry feature vector
(13 interleaved MFCC mean/std pairs, then the spectral-centroid mean and
std) regardless of the audio, so for any artifact whose `scaler_mean` has
more than 28 entries — as every artifact exported by
`create_simple_js_model` from this pipeline's 37-feature dataset does —
the scoring branch is unreachable and the command reports the dimension
mismatch without producing a decision. -/
theorem c10_test_model_always_mismatch (ops : LibrosaOps) (y : List ℝ) (model : JsModel)
    (hlen : 28 < model.scalerMean.length) :
    (test_model_features ops y).length = 28
    ∧ test_model model (test_model_features ops y) = TestModelResult.mismatch := by
  have hl : (test_model_features ops y).length = 28 := rfl
  refine ⟨hl, test_model_short model _ ?_⟩
  rw [hl]
  exact hlen

/-- C10 witness: a 37-feature artifact (the size this pipeline exports)
scored by `test_model` on any audio reports the dimension mismatch. -/
theorem c10_witness :
    28 < (JsModel.simple_rules [] [] (List.replicate 37 0) (List.replicate 37 1)
        0).scalerMean.length
    ∧ test_model
        (JsModel.simple_rules [] [] (List.replicate 37 0) (List.replicate 37 1) 0)
        (test_model_features ops0 [1]) = TestModelResult.mismatch := by
  have h := c10_test_model_always_mismatch ops0 [1]
    (JsModel.simple_rules [] [] (List.replicate 37 0) (List.replicate 37 1) 0)
    (by norm_num [JsModel.scalerMean])
  exact ⟨by norm_num [JsModel.scalerMean], h.2⟩
